import Mathlib

/-
  Verification development for the Impala distributed query scheduler
  (be/src/scheduling/scheduler.h and be/src/scheduling/scheduler-test-util.h).

  Pure definitions below are shallow embeddings of the C++ sources. Member
  functions whose bodies are not part of the repository snapshot (only their
  declarations and documentation are) are modelled from the specification;
  each such definition carries a doc comment starting with
  "Modelled from the spec:".
-/

namespace ImpalaSched

/-- IP addresses are modelled as strings, mirroring the IpAddr typedef. -/
abbrev IpAddr := String

/-- Heap element used by the scheduler's AssignmentHeap (scheduler.h, struct
BackendAssignmentInfo): the number of bytes assigned to a backend host, the
random rank used to break ties, and the backend's IP address. -/
structure BackendAssignmentInfo where
  assigned_bytes : Int
  random_rank : Int
  ip : IpAddr
deriving Repr, DecidableEq

/-- Embedding of BackendAssignmentInfo::operator> (scheduler.h): compare two
elements; the key is (assigned_bytes, random_rank). -/
def BackendAssignmentInfo.gt (a rhs : BackendAssignmentInfo) : Bool :=
  if a.assigned_bytes ≠ rhs.assigned_bytes then
    decide (a.assigned_bytes > rhs.assigned_bytes)
  else
    decide (a.random_rank > rhs.random_rank)

/-- Lexicographic "less or equal" on the heap key (assigned_bytes, random_rank). -/
def keyLe (a b : BackendAssignmentInfo) : Prop :=
  a.assigned_bytes < b.assigned_bytes ∨
    (a.assigned_bytes = b.assigned_bytes ∧ a.random_rank ≤ b.random_rank)

instance (a b : BackendAssignmentInfo) : Decidable (keyLe a b) := by
  unfold keyLe; infer_instance

/-- Model of AssignmentHeap::top() (scheduler.h): the binomial heap is
represented by the multiset of its elements; with the comparator
std::greater over BackendAssignmentInfo the heap is a min-heap, so top()
returns an element minimal with respect to the key. -/
def heapTop (x : BackendAssignmentInfo) (xs : List BackendAssignmentInfo) :
    BackendAssignmentInfo :=
  xs.foldl (fun acc e => if BackendAssignmentInfo.gt acc e then e else acc) x

theorem gt_iff_key (a b : BackendAssignmentInfo) :
    a.gt b = true ↔
      (a.assigned_bytes > b.assigned_bytes ∨
        (a.assigned_bytes = b.assigned_bytes ∧ a.random_rank > b.random_rank)) := by
  unfold BackendAssignmentInfo.gt
  by_cases h : a.assigned_bytes = b.assigned_bytes <;> simp [h] <;> omega

theorem gt_eq_false_iff (a b : BackendAssignmentInfo) :
    a.gt b = false ↔ keyLe a b := by
  unfold BackendAssignmentInfo.gt keyLe
  by_cases h : a.assigned_bytes = b.assigned_bytes <;> simp [h] <;> omega

theorem keyLe_trans {a b c : BackendAssignmentInfo}
    (h1 : keyLe a b) (h2 : keyLe b c) : keyLe a c := by
  unfold keyLe at h1 h2 ⊢
  rcases h1 with h1 | ⟨h1, h1r⟩ <;> rcases h2 with h2 | ⟨h2, h2r⟩ <;> omega

theorem keyLe_of_gt {a b : BackendAssignmentInfo} (h : a.gt b = true) :
    keyLe b a := by
  rw [gt_iff_key] at h
  unfold keyLe
  omega

theorem keyLe_refl (a : BackendAssignmentInfo) : keyLe a a := by
  unfold keyLe; omega

theorem heapTop_spec (x : BackendAssignmentInfo)
    (xs : List BackendAssignmentInfo) :
    heapTop x xs ∈ x :: xs ∧ ∀ e ∈ x :: xs, keyLe (heapTop x xs) e := by
  induction xs generalizing x with
  | nil =>
    refine ⟨by simp [heapTop], ?_⟩
    intro e he
    have : e = x := by simpa using he
    subst this
    exact keyLe_refl _
  | cons y ys ih =>
    cases hgt : BackendAssignmentInfo.gt x y with
    | true =>
      have hstep : heapTop x (y :: ys) = heapTop y ys := by
        simp [heapTop, List.foldl_cons, hgt]
      obtain ⟨hmem, hmin⟩ := ih y
      have hyx : keyLe y x := keyLe_of_gt hgt
      refine ⟨?_, ?_⟩
      · rw [hstep]
        exact List.mem_cons_of_mem x hmem
      · intro e he
        rw [hstep]
        rcases List.mem_cons.mp he with rfl | he2
        · exact keyLe_trans (hmin y (List.mem_cons_self y ys)) hyx
        · exact hmin e he2
    | false =>
      have hstep : heapTop x (y :: ys) = heapTop x ys := by
        simp [heapTop, List.foldl_cons, hgt]
      obtain ⟨hmem, hmin⟩ := ih x
      have hxy : keyLe x y := (gt_eq_false_iff x y).mp hgt
      refine ⟨?_, ?_⟩
      · rw [hstep]
        rcases List.mem_cons.mp hmem with hm | hm
        · rw [hm]; exact List.mem_cons_self _ _
        · exact List.mem_cons_of_mem x (List.mem_cons_of_mem y hm)
      · intro e he
        rw [hstep]
        rcases List.mem_cons.mp he with rfl | he2
        · exact hmin e (List.mem_cons_self e ys)
        · rcases List.mem_cons.mp he2 with rfl | he3
          · exact keyLe_trans (hmin x (List.mem_cons_self x ys)) hxy
          · exact hmin e (List.mem_cons_of_mem x he3)

/-- C2: the assignment heap is a min-heap ordered lexicographically by
(assigned_bytes ascending, random_rank ascending): operator> holds exactly
when assigned_bytes is larger, or assigned_bytes ties and random_rank is
larger; consequently top() returns an element whose key pair is minimal
among all elements of the heap. -/
theorem C2_assignment_heap_min_order :
    (∀ a b : BackendAssignmentInfo,
        a.gt b = true ↔
          (a.assigned_bytes > b.assigned_bytes ∨
            (a.assigned_bytes = b.assigned_bytes ∧
              a.random_rank > b.random_rank))) ∧
    (∀ (x : BackendAssignmentInfo) (xs : List BackendAssignmentInfo),
        ∀ e ∈ x :: xs, keyLe (heapTop x xs) e) :=
  ⟨gt_iff_key, fun x xs => (heapTop_spec x xs).2⟩

/-- Witness for C2 at concrete heap elements. -/
theorem C2_assignment_heap_min_order_witness :
    BackendAssignmentInfo.gt ⟨5, 1, "10.0.0.1"⟩ ⟨3, 2, "10.0.0.2"⟩ = true ∧
    keyLe (heapTop ⟨5, 1, "10.0.0.1"⟩ [⟨3, 2, "10.0.0.2"⟩])
      ⟨3, 2, "10.0.0.2"⟩ :=
  ⟨(C2_assignment_heap_min_order.1 ⟨5, 1, "10.0.0.1"⟩ ⟨3, 2, "10.0.0.2"⟩).mpr
      (Or.inl (by decide)),
    C2_assignment_heap_min_order.2 ⟨5, 1, "10.0.0.1"⟩ [⟨3, 2, "10.0.0.2"⟩]
      ⟨3, 2, "10.0.0.2"⟩ (by simp)⟩

/-- C9: the heap-element comparison ignores the ip field: whenever two
BackendAssignmentInfo values agree on assigned_bytes and random_rank,
neither compares greater than the other, whatever their ip fields are. -/
theorem C9_gt_ignores_ip (a b : BackendAssignmentInfo)
    (h1 : a.assigned_bytes = b.assigned_bytes)
    (h2 : a.random_rank = b.random_rank) :
    a.gt b = false ∧ b.gt a = false := by
  unfold BackendAssignmentInfo.gt
  simp [h1, h2]

/-- Witness for C9 at two elements that differ only in their ip field. -/
theorem C9_gt_ignores_ip_witness :
    BackendAssignmentInfo.gt ⟨7, 3, "10.0.0.1"⟩ ⟨7, 3, "10.0.0.2"⟩ = false ∧
    BackendAssignmentInfo.gt ⟨7, 3, "10.0.0.2"⟩ ⟨7, 3, "10.0.0.1"⟩ = false :=
  C9_gt_ignores_ip ⟨7, 3, "10.0.0.1"⟩ ⟨7, 3, "10.0.0.2"⟩ rfl rfl

/-- Host model from scheduler-test-util.h: a test-cluster host with optional
backend and datanode roles (a port of -1 marks an absent role) and the two
role flags. -/
structure Host where
  name : String
  ip : IpAddr
  be_port : Int
  dn_port : Int
  is_coordinator : Bool
  is_executor : Bool
deriving Repr, DecidableEq

/-- Embedding of the Host constructor (scheduler-test-util.h): it receives
name, ip, the two ports and the executor flag, and initializes
is_coordinator to true unconditionally. -/
def Host.construct (name : String) (ip : IpAddr) (be_port dn_port : Int)
    (is_executor : Bool) : Host :=
  { name := name, ip := ip, be_port := be_port, dn_port := dn_port,
    is_coordinator := true, is_executor := is_executor }

/-- C10: every Host built via the constructor has is_coordinator = true; a
coordinator-only host (executor flag false) is representable, while an
executor-only host (executor true, coordinator false) is not. -/
theorem C10_host_always_coordinator :
    (∀ (name : String) (ip : IpAddr) (bp dp : Int) (ex : Bool),
        (Host.construct name ip bp dp ex).is_coordinator = true) ∧
    (∃ h : Host,
        (∃ name ip bp dp ex, h = Host.construct name ip bp dp ex) ∧
        h.is_coordinator = true ∧ h.is_executor = false) ∧
    (∀ (name : String) (ip : IpAddr) (bp dp : Int) (ex : Bool),
        ((Host.construct name ip bp dp ex).is_executor &&
          !(Host.construct name ip bp dp ex).is_coordinator) = false) := by
  refine ⟨fun name ip bp dp ex => rfl, ⟨Host.construct "host0" "10.0.0.1" 25000 (-1) false, ⟨"host0", "10.0.0.1", 25000, -1, false, rfl⟩, rfl, rfl⟩, fun name ip bp dp ex => ?_⟩
  simp [Host.construct]

/-- Memory distance of a replica (TReplicaPreference): reading cached data is
cheaper than a local disk read, which is cheaper than a remote read. -/
inductive TReplicaPreference where
  | CACHE_LOCAL
  | DISK_LOCAL
  | REMOTE
deriving Repr, DecidableEq

/-- Numeric cost class of a memory distance, lowest cost first. -/
def TReplicaPreference.rank : TReplicaPreference → Nat
  | .CACHE_LOCAL => 0
  | .DISK_LOCAL => 1
  | .REMOTE => 2

/-- The farther (stricter) of two memory distances. -/
def distMax (a b : TReplicaPreference) : TReplicaPreference :=
  if a.rank ≤ b.rank then b else a

/-- The nearer of two memory distances. -/
def distMin (a b : TReplicaPreference) : TReplicaPreference :=
  if a.rank ≤ b.rank then a else b

/-- Nearest distance occurring in a list; REMOTE is the neutral element. -/
def bestDistance (l : List TReplicaPreference) : TReplicaPreference :=
  l.foldl distMin .REMOTE

/-- Modelled from the spec: the effective minimum memory distance used by
Scheduler::ComputeScanRangeAssignment (whose body is absent from the
snapshot). It is DISK_LOCAL when disable_cached_reads is set, which
overrides any hint; otherwise it is the stricter of the query option
replica_preference and the per-node hint. -/
def effectiveMinDistance (disable_cached_reads : Bool)
    (replica_preference : TReplicaPreference)
    (node_replica_preference : Option TReplicaPreference) :
    TReplicaPreference :=
  if disable_cached_reads then .DISK_LOCAL
  else
    match node_replica_preference with
    | none => replica_preference
    | some p => distMax replica_preference p

/-- Distance of one replica, clamped at the effective minimum distance. -/
def replicaDistance (min_distance : TReplicaPreference) (is_cached : Bool) :
    TReplicaPreference :=
  distMax min_distance (if is_cached then .CACHE_LOCAL else .DISK_LOCAL)

/-- One replica location of a scan range: an index into the plan host list
plus the cached flag (TScanRangeLocation). -/
structure TScanRangeLocation where
  host_idx : Nat
  is_cached : Bool
deriving Repr, DecidableEq

/-- A scan range with its replica locations (TScanRangeLocationList). -/
structure TScanRangeLocationList where
  length_bytes : Int
  locations : List TScanRangeLocation
deriving Repr, DecidableEq

/-- Errors of the scheduling path. -/
inductive SchedError where
  | NO_EXECUTORS
  | MALFORMED_PLAN
  | INTERNAL
deriving Repr, DecidableEq

/-- One recorded scan-range assignment: the chosen backend ip, the index of
the scan range in the plan node's location list, the cached/remote
classification and the range length. -/
structure AssignedRange where
  ip : IpAddr
  range_idx : Nat
  is_cached : Bool
  is_remote : Bool
  length_bytes : Int
deriving Repr, DecidableEq

/-- State of AssignmentCtx (scheduler.h): the random backend order, the
first-unused cursor into it, the addressable assignment heap, the recorded
assignments and the byte counters. -/
structure AssignmentCtx where
  random_backend_order : List IpAddr
  first_unused_backend_idx : Nat
  assignment_heap : List BackendAssignmentInfo
  records : List AssignedRange
  cached_bytes : Int
  local_bytes : Int
  remote_bytes : Int
deriving Repr, DecidableEq

/-- Fresh AssignmentCtx for one plan node. -/
def initCtx (order : List IpAddr) : AssignmentCtx :=
  { random_backend_order := order, first_unused_backend_idx := 0,
    assignment_heap := [], records := [], cached_bytes := 0,
    local_bytes := 0, remote_bytes := 0 }

/-- Rank of a backend: its position in the random backend order. -/
def GetBackendRank (ctx : AssignmentCtx) (ip : IpAddr) : Nat :=
  ctx.random_backend_order.indexOf ip

/-- Bytes currently assigned to a backend, zero when it is not in the heap. -/
def assignedBytesOf (ctx : AssignmentCtx) (ip : IpAddr) : Int :=
  match ctx.assignment_heap.find? (fun e => e.ip == ip) with
  | some e => e.assigned_bytes
  | none => 0

/-- Modelled from the spec: AddressableAssignmentHeap::InsertOrUpdate (only
declared in scheduler.h). When the ip is absent a fresh element with the
given bytes and rank is inserted, otherwise the element's key grows by the
byte delta. -/
def InsertOrUpdate (heap : List BackendAssignmentInfo) (ip : IpAddr)
    (delta : Int) (rank : Int) : List BackendAssignmentInfo :=
  if heap.any (fun e => e.ip == ip) then
    heap.map (fun e =>
      if e.ip == ip then { e with assigned_bytes := e.assigned_bytes + delta }
      else e)
  else
    { assigned_bytes := delta, random_rank := rank, ip := ip } :: heap

/-- Modelled from the spec: AssignmentCtx::SelectRemoteBackendHost (only
declared in scheduler.h). Unused backends from the random backend order are
preferred, advancing the first-unused cursor; otherwise the ip at the top
of the assignment heap is taken. The result is none exactly in the
situation the C++ code guards with a DCHECK (no unused backend and an
empty heap). -/
def SelectRemoteBackendHost (ctx : AssignmentCtx) :
    Option (IpAddr × AssignmentCtx) :=
  if h : ctx.first_unused_backend_idx < ctx.random_backend_order.length then
    some (ctx.random_backend_order.get ⟨ctx.first_unused_backend_idx, h⟩,
      { ctx with
        first_unused_backend_idx := ctx.first_unused_backend_idx + 1 })
  else
    match ctx.assignment_heap with
    | [] => none
    | x :: xs => some ((heapTop x xs).ip, ctx)

/-- Selection key of a candidate backend: assigned bytes first, then the
backend rank when ties are broken by rank, otherwise a constant so that
ties keep the first candidate in input order. -/
def localKey (ctx : AssignmentCtx) (break_ties_by_rank : Bool) (ip : IpAddr) :
    Int × Int :=
  (assignedBytesOf ctx ip,
    if break_ties_by_rank then (GetBackendRank ctx ip : Int) else 0)

/-- Strict lexicographic comparison of selection keys. -/
def keyLt (a b : Int × Int) : Bool :=
  decide (a.1 < b.1) || (decide (a.1 = b.1) && decide (a.2 < b.2))

/-- Modelled from the spec: AssignmentCtx::SelectLocalBackendHost (only
declared in scheduler.h). Among the candidate ips the one with the minimum
number of assigned bytes is picked; on ties the backend rank decides when
break_ties_by_rank is true, otherwise the first candidate in input order
is kept. -/
def SelectLocalBackendHost (ctx : AssignmentCtx)
    (data_locations : List IpAddr) (break_ties_by_rank : Bool) :
    Option IpAddr :=
  match data_locations with
  | [] => none
  | x :: xs =>
    some (xs.foldl (fun acc e =>
      if keyLt (localKey ctx break_ties_by_rank e)
          (localKey ctx break_ties_by_rank acc) then e else acc) x)

/-- Modelled from the spec: AssignmentCtx::RecordScanRangeAssignment (only
declared in scheduler.h). It appends one record for the (backend, range)
pair, bumps the backend's heap key (a zero-length range still counts one
byte so the backend is not starved) and updates the byte counters by the
range length according to the cached/remote classification. -/
def RecordScanRangeAssignment (ctx : AssignmentCtx) (ip : IpAddr)
    (range_idx : Nat) (len : Int) (is_cached is_remote : Bool) :
    AssignmentCtx :=
  { ctx with
    assignment_heap :=
      InsertOrUpdate ctx.assignment_heap ip (if len = 0 then 1 else len)
        (GetBackendRank ctx ip : Int),
    records :=
      { ip := ip, range_idx := range_idx, is_cached := is_cached,
        is_remote := is_remote, length_bytes := len } :: ctx.records,
    cached_bytes := ctx.cached_bytes + (if is_cached then len else 0),
    local_bytes := ctx.local_bytes +
      (if is_cached then 0 else if is_remote then 0 else len),
    remote_bytes := ctx.remote_bytes +
      (if is_cached then 0 else if is_remote then len else 0) }

/-- Resolve one replica location against the plan host list. -/
def resolveReplica (host_list : List IpAddr) (loc : TScanRangeLocation) :
    Option (IpAddr × Bool) :=
  (host_list[loc.host_idx]?).map (fun ip => (ip, loc.is_cached))

/-- Whether ties between candidates at the best memory distance are broken by
the random backend rank: always for CACHE_LOCAL and REMOTE, and only when
schedule_random_replica is set for DISK_LOCAL. -/
def breakTiesFor (best : TReplicaPreference)
    (schedule_random_replica : Bool) : Bool :=
  (!(best == .DISK_LOCAL)) || schedule_random_replica

/-- Parameters fixed for one call of ComputeScanRangeAssignment. -/
structure SchedParams where
  executors : List IpAddr
  host_list : List IpAddr
  min_distance : TReplicaPreference
  schedule_random_replica : Bool
  exec_at_coord : Bool
  coord_ip : IpAddr
deriving Repr, DecidableEq

/-- Replicas of a range that live on an executor host. -/
def candidatesOf (p : SchedParams) (reps : List (IpAddr × Bool)) :
    List (IpAddr × Bool) :=
  reps.filter (fun q => decide (q.1 ∈ p.executors))

/-- Candidates tagged with their memory distance, clamped at the effective
minimum distance. -/
def distsOf (p : SchedParams) (candidates : List (IpAddr × Bool)) :
    List (IpAddr × TReplicaPreference) :=
  candidates.map (fun q => (q.1, replicaDistance p.min_distance q.2))

/-- Best (nearest) memory distance among the candidates. -/
def bestOf (p : SchedParams) (candidates : List (IpAddr × Bool)) :
    TReplicaPreference :=
  bestDistance ((distsOf p candidates).map (fun q => q.2))

/-- The candidate ips at the best memory distance, in input order. -/
def atBestOf (p : SchedParams) (candidates : List (IpAddr × Bool)) :
    List IpAddr :=
  ((distsOf p candidates).filter
    (fun q => q.2 == bestOf p candidates)).map (fun q => q.1)

/-- Modelled from the spec: the per-scan-range body of
Scheduler::ComputeScanRangeAssignment (only declared in scheduler.h).
With exec_at_coord the range is recorded on the coordinator. Otherwise the
replicas are resolved against the plan host list (an out-of-range index is
a malformed plan), the replicas on executor hosts are classified by memory
distance clamped at the effective minimum, and among the candidates at the
best distance a backend is selected by assigned bytes, with ties broken by
rank for CACHE_LOCAL and REMOTE and, for DISK_LOCAL, only when
schedule_random_replica is set. A range without any executor replica goes
to a backend chosen by SelectRemoteBackendHost. -/
def processRange (p : SchedParams) (ctx : AssignmentCtx) (idx : Nat)
    (r : TScanRangeLocationList) : Except SchedError AssignmentCtx :=
  if p.exec_at_coord then
    .ok (RecordScanRangeAssignment ctx p.coord_ip idx r.length_bytes
      false false)
  else
    match r.locations.mapM (resolveReplica p.host_list) with
    | none => .error .MALFORMED_PLAN
    | some reps =>
      if (candidatesOf p reps).isEmpty then
        match SelectRemoteBackendHost ctx with
        | none => .error .INTERNAL
        | some (ip, ctx2) =>
          .ok (RecordScanRangeAssignment ctx2 ip idx r.length_bytes
            false true)
      else
        match SelectLocalBackendHost ctx (atBestOf p (candidatesOf p reps))
            (breakTiesFor (bestOf p (candidatesOf p reps))
              p.schedule_random_replica) with
        | none => .error .INTERNAL
        | some ip =>
          .ok (RecordScanRangeAssignment ctx ip idx r.length_bytes
            (bestOf p (candidatesOf p reps) == .CACHE_LOCAL)
            (bestOf p (candidatesOf p reps) == .REMOTE))

/-- Process a list of (index, scan range) pairs in order, threading the
assignment context. -/
def assignRanges (p : SchedParams) (ctx : AssignmentCtx) :
    List (Nat × TScanRangeLocationList) → Except SchedError AssignmentCtx
  | [] => .ok ctx
  | item :: rest =>
    match processRange p ctx item.1 item.2 with
    | .error e => .error e
    | .ok ctx2 => assignRanges p ctx2 rest

/-- Whether some replica of the range lives on an executor host. -/
def hasLocalReplica (executors host_list : List IpAddr)
    (r : TScanRangeLocationList) : Bool :=
  r.locations.any (fun loc =>
    match host_list[loc.host_idx]? with
    | some ip => executors.contains ip
    | none => false)

/-- Modelled from the spec: Scheduler::ComputeScanRangeAssignment for one plan
node (only declared in scheduler.h). With an empty executor set and
exec_at_coord unset it fails with NO_EXECUTORS; otherwise the ranges with
at least one replica on an executor host are processed before the purely
remote ranges, one assignment being recorded per range. -/
def ComputeScanRangeAssignment (executors : List IpAddr)
    (random_backend_order : List IpAddr) (host_list : List IpAddr)
    (locations : List TScanRangeLocationList) (disable_cached_reads : Bool)
    (replica_preference : TReplicaPreference)
    (node_replica_preference : Option TReplicaPreference)
    (schedule_random_replica : Bool) (exec_at_coord : Bool)
    (coord_ip : IpAddr) : Except SchedError AssignmentCtx :=
  if executors.isEmpty && !exec_at_coord then .error .NO_EXECUTORS
  else
    assignRanges
      { executors := executors, host_list := host_list,
        min_distance := effectiveMinDistance disable_cached_reads
          replica_preference node_replica_preference,
        schedule_random_replica := schedule_random_replica,
        exec_at_coord := exec_at_coord, coord_ip := coord_ip }
      (initCtx random_backend_order)
      (locations.enum.filter
          (fun q => hasLocalReplica executors host_list q.2) ++
        locations.enum.filter
          (fun q => !(hasLocalReplica executors host_list q.2)))

/-- Backend descriptor as tracked by the membership update path
(TBackendDescriptor): the service address, the resolved ip and the role
flags. -/
structure TBackendDescriptor where
  address : String
  ip : IpAddr
  is_coordinator : Bool
  is_executor : Bool
deriving Repr, DecidableEq

/-- The membership map kept by the scheduler (current_membership_ in
scheduler.h): backend id keys mapped to descriptors. The list is kept with
the most recently written entry first. -/
abbrev BackendIdMap := List (String × TBackendDescriptor)

/-- Modelled from the spec: applying one statestore topic entry to the
membership map inside Scheduler::UpdateMembership (only declared in
scheduler.h). A tombstone removes the key; a payload inserts or replaces
it. The tracker never aborts on any entry. -/
def applyTopicEntry (m : BackendIdMap)
    (entry : String × Option TBackendDescriptor) : BackendIdMap :=
  match entry.2 with
  | none => m.filter (fun q => q.1 != entry.1)
  | some d => (entry.1, d) :: m.filter (fun q => q.1 != entry.1)

/-- Modelled from the spec: applying an incremental topic delta entry by
entry, in the order the entries were received. -/
def applyTopicDelta (m : BackendIdMap)
    (entries : List (String × Option TBackendDescriptor)) : BackendIdMap :=
  entries.foldl applyTopicEntry m

/-- Modelled from the spec: the published snapshot indexes backends by ip;
with the membership kept most-recent-first, the first entry holding the ip
is the one the snapshot publishes for it. -/
def snapshotLookup (m : BackendIdMap) (ip : IpAddr) :
    Option TBackendDescriptor :=
  (m.find? (fun q => q.2.ip == ip)).map (fun q => q.2)

/-- Modelled from the spec: one step of the seedable RNG injected into the
scheduler (a linear congruential generator). -/
def lcgStep (s : Nat) : Nat := (s * 1103515245 + 12345) % 2147483648

/-- Modelled from the spec: the random permutation of backend hosts drawn
when an AssignmentCtx is created, derived deterministically from the RNG
seed. -/
def randomPermutation (s : Nat) (l : List IpAddr) : List IpAddr :=
  match l with
  | [] => []
  | x :: xs =>
    (x :: xs).get ⟨s % (x :: xs).length, Nat.mod_lt _ (by simp)⟩ ::
      randomPermutation (lcgStep s)
        ((x :: xs).eraseIdx (s % (x :: xs).length))
termination_by l.length
decreasing_by
  have h : s % (x :: xs).length < (x :: xs).length :=
    Nat.mod_lt _ (by simp)
  rw [List.length_eraseIdx_of_lt h]
  simp

/-- Scan node of a plan: its plan-local host list and its scan ranges. -/
structure ScanNodePlan where
  host_list : List IpAddr
  locations : List TScanRangeLocationList
deriving Repr, DecidableEq

/-- Query options relevant to scan-range assignment. -/
structure QueryOptions where
  replica_preference : TReplicaPreference
  schedule_random_replica : Bool
  disable_cached_reads : Bool
deriving Repr, DecidableEq

/-- Modelled from the spec: the scan-range-assignment core of
Scheduler::Schedule (only declared in scheduler.h): every scan node of the
plan is assigned via ComputeScanRangeAssignment, with the random backend
order drawn deterministically from the per-query RNG seed. -/
def Schedule (executors : List IpAddr) (plan : List ScanNodePlan)
    (opts : QueryOptions) (seed : Nat) (coord_ip : IpAddr) :
    List (Except SchedError AssignmentCtx) :=
  plan.map (fun node =>
    ComputeScanRangeAssignment executors (randomPermutation seed executors)
      node.host_list node.locations opts.disable_cached_reads
      opts.replica_preference none opts.schedule_random_replica false
      coord_ip)

/-- C5: with an empty executor set and exec_at_coord unset,
ComputeScanRangeAssignment fails with the NO_EXECUTORS error for every
plan, instead of returning a partial or empty assignment. -/
theorem C5_empty_executor_set (order host_list : List IpAddr)
    (locations : List TScanRangeLocationList) (dcr : Bool)
    (rp : TReplicaPreference) (nrp : Option TReplicaPreference) (srr : Bool)
    (coord : IpAddr) :
    ComputeScanRangeAssignment [] order host_list locations dcr rp nrp srr
      false coord = .error .NO_EXECUTORS := rfl

/-- C4: SelectRemoteBackendHost returns the backend at position
first_unused_backend_idx of the random backend order and advances the
cursor while the cursor is below the number of backends; otherwise it
returns the ip at the top of the assignment heap, an element whose
(assigned_bytes, random_rank) key is minimal in the heap. -/
theorem C4_select_remote_behavior (ctx : AssignmentCtx) :
    (∀ h : ctx.first_unused_backend_idx < ctx.random_backend_order.length,
        SelectRemoteBackendHost ctx =
          some (ctx.random_backend_order.get
              ⟨ctx.first_unused_backend_idx, h⟩,
            { ctx with
              first_unused_backend_idx :=
                ctx.first_unused_backend_idx + 1 })) ∧
    (∀ (x : BackendAssignmentInfo) (xs : List BackendAssignmentInfo),
        ctx.random_backend_order.length ≤ ctx.first_unused_backend_idx →
        ctx.assignment_heap = x :: xs →
        SelectRemoteBackendHost ctx = some ((heapTop x xs).ip, ctx) ∧
        ∀ e ∈ x :: xs, keyLe (heapTop x xs) e) := by
  constructor
  · intro h
    unfold SelectRemoteBackendHost
    rw [dif_pos h]
  · intro x xs hle hheap
    refine ⟨?_, (heapTop_spec x xs).2⟩
    unfold SelectRemoteBackendHost
    rw [dif_neg (by omega), hheap]

/-- Witness for C4: both branches at concrete assignment contexts. -/
theorem C4_select_remote_behavior_witness :
    SelectRemoteBackendHost
        { random_backend_order := ["10.0.0.1", "10.0.0.2"],
          first_unused_backend_idx := 0, assignment_heap := [],
          records := [], cached_bytes := 0, local_bytes := 0,
          remote_bytes := 0 } =
      some ("10.0.0.1",
        { random_backend_order := ["10.0.0.1", "10.0.0.2"],
          first_unused_backend_idx := 1, assignment_heap := [],
          records := [], cached_bytes := 0, local_bytes := 0,
          remote_bytes := 0 }) ∧
    SelectRemoteBackendHost
        { random_backend_order := ["10.0.0.1", "10.0.0.2"],
          first_unused_backend_idx := 2,
          assignment_heap := [⟨9, 1, "10.0.0.1"⟩, ⟨3, 0, "10.0.0.2"⟩],
          records := [], cached_bytes := 0, local_bytes := 0,
          remote_bytes := 0 } =
      some ("10.0.0.2",
        { random_backend_order := ["10.0.0.1", "10.0.0.2"],
          first_unused_backend_idx := 2,
          assignment_heap := [⟨9, 1, "10.0.0.1"⟩, ⟨3, 0, "10.0.0.2"⟩],
          records := [], cached_bytes := 0, local_bytes := 0,
          remote_bytes := 0 }) :=
  ⟨(C4_select_remote_behavior _).1 (by decide),
    ((C4_select_remote_behavior _).2 ⟨9, 1, "10.0.0.1"⟩ [⟨3, 0, "10.0.0.2"⟩]
      (by decide) rfl).1⟩

/-- C6: scheduling is deterministic as a two-run property: two invocations of
Schedule with componentwise identical backend snapshot, plan, query
options, RNG seed and coordinator produce identical schedules. -/
theorem C6_deterministic_two_runs
    (e1 e2 : List IpAddr) (p1 p2 : List ScanNodePlan) (o1 o2 : QueryOptions)
    (s1 s2 : Nat) (c1 c2 : IpAddr) (he : e1 = e2) (hp : p1 = p2)
    (ho : o1 = o2) (hs : s1 = s2) (hc : c1 = c2) :
    Schedule e1 p1 o1 s1 c1 = Schedule e2 p2 o2 s2 c2 := by
  subst he; subst hp; subst ho; subst hs; subst hc; rfl

/-- Witness for C6 at a concrete one-node plan. -/
theorem C6_deterministic_two_runs_witness :
    Schedule ["10.0.0.1"] [⟨["10.0.0.1"], [⟨5, [⟨0, false⟩]⟩]⟩]
        ⟨.CACHE_LOCAL, false, false⟩ 42 "10.0.0.1" =
      Schedule ["10.0.0.1"] [⟨["10.0.0.1"], [⟨5, [⟨0, false⟩]⟩]⟩]
        ⟨.CACHE_LOCAL, false, false⟩ 42 "10.0.0.1" :=
  C6_deterministic_two_runs _ _ _ _ _ _ _ _ _ _ rfl rfl rfl rfl rfl

/-- C8: two registrations of the same ip under distinct backend ids leave the
tracker running (both ids stay in the membership map) and the most recently
received descriptor is the one the published snapshot holds for that ip. -/
theorem C8_last_writer_wins (m : BackendIdMap) (k1 k2 : String)
    (d1 d2 : TBackendDescriptor) (hk : k1 ≠ k2) (hip : d1.ip = d2.ip) :
    snapshotLookup (applyTopicDelta m [(k1, some d1), (k2, some d2)]) d1.ip
      = some d2 ∧
    (applyTopicDelta m [(k1, some d1), (k2, some d2)]).any
      (fun q => q.1 == k1) = true := by
  constructor
  · simp [applyTopicDelta, applyTopicEntry, snapshotLookup, hip]
  · simp [applyTopicDelta, applyTopicEntry, List.any_cons, hk]

/-- Witness for C8 at two concrete registrations of the ip 10.0.0.1. -/
theorem C8_last_writer_wins_witness :
    snapshotLookup (applyTopicDelta []
        [("id1", some ⟨"host1:25000", "10.0.0.1", true, true⟩),
         ("id2", some ⟨"host1:25001", "10.0.0.1", true, true⟩)])
      "10.0.0.1" = some ⟨"host1:25001", "10.0.0.1", true, true⟩ ∧
    (applyTopicDelta []
        [("id1", some ⟨"host1:25000", "10.0.0.1", true, true⟩),
         ("id2", some ⟨"host1:25001", "10.0.0.1", true, true⟩)]).any
      (fun q => q.1 == "id1") = true :=
  C8_last_writer_wins [] "id1" "id2"
    ⟨"host1:25000", "10.0.0.1", true, true⟩
    ⟨"host1:25001", "10.0.0.1", true, true⟩ (by decide) rfl

theorem distMax_rank_left (a b : TReplicaPreference) :
    a.rank ≤ (distMax a b).rank := by
  unfold distMax
  split <;> omega

theorem foldl_distMin_mem (a : TReplicaPreference)
    (l : List TReplicaPreference) :
    l.foldl distMin a = a ∨ l.foldl distMin a ∈ l := by
  induction l generalizing a with
  | nil => exact Or.inl rfl
  | cons x xs ih =>
    rw [List.foldl_cons]
    rcases ih (distMin a x) with h | h
    · rw [h]
      unfold distMin
      split
      · exact Or.inl rfl
      · exact Or.inr (List.mem_cons_self x xs)
    · exact Or.inr (List.mem_cons_of_mem x h)

theorem bestDistance_rank_ge {l : List TReplicaPreference} {n : Nat}
    (hall : ∀ d ∈ l, n ≤ d.rank)
    (hr : n ≤ TReplicaPreference.REMOTE.rank) :
    n ≤ (bestDistance l).rank := by
  rcases foldl_distMin_mem .REMOTE l with h | h
  · unfold bestDistance
    rw [h]
    exact hr
  · exact hall _ h

theorem bestOf_rank_ge (p : SchedParams)
    (candidates : List (IpAddr × Bool)) :
    p.min_distance.rank ≤ (bestOf p candidates).rank := by
  apply bestDistance_rank_ge
  · intro d hd
    simp only [distsOf, List.map_map, List.mem_map] at hd
    obtain ⟨q, hq, rfl⟩ := hd
    exact distMax_rank_left _ _
  · cases p.min_distance <;> simp [TReplicaPreference.rank]

theorem bestOf_not_cached {p : SchedParams}
    (hmin : 1 ≤ p.min_distance.rank) (candidates : List (IpAddr × Bool)) :
    (bestOf p candidates == TReplicaPreference.CACHE_LOCAL) = false := by
  have h := bestOf_rank_ge p candidates
  cases hb : bestOf p candidates <;>
    simp_all [TReplicaPreference.rank]

theorem record_false_preserves {ctx : AssignmentCtx} {ip : IpAddr}
    {idx : Nat} {len : Int} {r : Bool} (hc : ctx.cached_bytes = 0)
    (hrec : ∀ rec ∈ ctx.records, rec.is_cached = false) :
    (RecordScanRangeAssignment ctx ip idx len false r).cached_bytes = 0 ∧
    ∀ rec ∈ (RecordScanRangeAssignment ctx ip idx len false r).records,
      rec.is_cached = false := by
  refine ⟨by simp [RecordScanRangeAssignment, hc], ?_⟩
  intro rec h
  simp only [RecordScanRangeAssignment, List.mem_cons] at h
  rcases h with rfl | h
  · rfl
  · exact hrec rec h

theorem SelectRemote_fields {ctx ctx2 : AssignmentCtx} {ip : IpAddr}
    (h : SelectRemoteBackendHost ctx = some (ip, ctx2)) :
    (ip ∈ ctx.random_backend_order ∨
      ∃ e ∈ ctx.assignment_heap, ip = e.ip) ∧
    ctx2.records = ctx.records ∧
    ctx2.assignment_heap = ctx.assignment_heap ∧
    ctx2.random_backend_order = ctx.random_backend_order ∧
    ctx2.cached_bytes = ctx.cached_bytes := by
  unfold SelectRemoteBackendHost at h
  split at h
  · cases h
    exact ⟨Or.inl (List.get_mem _ _ _), rfl, rfl, rfl, rfl⟩
  · split at h
    · cases h
    · rename_i x xs hheap
      cases h
      refine ⟨Or.inr ⟨heapTop x xs, ?_, rfl⟩, rfl, rfl, rfl, rfl⟩
      rw [hheap]
      exact (heapTop_spec x xs).1

theorem processRange_no_cached {p : SchedParams} {ctx ctx2 : AssignmentCtx}
    {idx : Nat} {r : TScanRangeLocationList}
    (hmin : 1 ≤ p.min_distance.rank)
    (hok : processRange p ctx idx r = .ok ctx2)
    (hc : ctx.cached_bytes = 0)
    (hrec : ∀ rec ∈ ctx.records, rec.is_cached = false) :
    ctx2.cached_bytes = 0 ∧ ∀ rec ∈ ctx2.records, rec.is_cached = false := by
  unfold processRange at hok
  split at hok
  · cases hok
    exact record_false_preserves hc hrec
  · split at hok
    · cases hok
    · rename_i reps
      split at hok
      · split at hok
        · cases hok
        · rename_i q hq
          cases hok
          obtain ⟨-, hr2, -, -, hc2⟩ := SelectRemote_fields hq
          exact record_false_preserves (by rw [hc2]; exact hc)
            (by rw [hr2]; exact hrec)
      · split at hok
        · cases hok
        · cases hok
          rw [bestOf_not_cached hmin]
          exact record_false_preserves hc hrec

theorem assignRanges_no_cached {p : SchedParams}
    (hmin : 1 ≤ p.min_distance.rank)
    (items : List (Nat × TScanRangeLocationList)) :
    ∀ ctx ctx2 : AssignmentCtx, assignRanges p ctx items = .ok ctx2 →
      ctx.cached_bytes = 0 →
      (∀ rec ∈ ctx.records, rec.is_cached = false) →
      ctx2.cached_bytes = 0 ∧ ∀ rec ∈ ctx2.records, rec.is_cached = false := by
  induction items with
  | nil =>
    intro ctx ctx2 hok hc hrec
    cases hok
    exact ⟨hc, hrec⟩
  | cons item rest ih =>
    intro ctx ctx2 hok hc hrec
    unfold assignRanges at hok
    cases hp : processRange p ctx item.1 item.2 with
    | error e => rw [hp] at hok; cases hok
    | ok ctxm =>
      rw [hp] at hok
      obtain ⟨hc2, hrec2⟩ := processRange_no_cached hmin hp hc hrec
      exact ih ctxm ctx2 hok hc2 hrec2

/-- C3: with disable_cached_reads set, no assignment is recorded as cached:
cached_bytes stays 0 and no recorded assignment carries the cached flag,
whatever the replica cached flags and the replica preference are; and the
effective minimum distance is at least DISK_LOCAL. -/
theorem C3_disable_cached_reads (executors order host_list : List IpAddr)
    (locations : List TScanRangeLocationList) (rp : TReplicaPreference)
    (nrp : Option TReplicaPreference) (srr ea : Bool) (coord : IpAddr)
    (ctx2 : AssignmentCtx)
    (hok : ComputeScanRangeAssignment executors order host_list locations
      true rp nrp srr ea coord = .ok ctx2) :
    ctx2.cached_bytes = 0 ∧
    (∀ rec ∈ ctx2.records, rec.is_cached = false) ∧
    TReplicaPreference.DISK_LOCAL.rank ≤
      (effectiveMinDistance true rp nrp).rank := by
  unfold ComputeScanRangeAssignment at hok
  split at hok
  · cases hok
  · obtain ⟨h1, h2⟩ :=
      @assignRanges_no_cached
        { executors := executors, host_list := host_list,
          min_distance := effectiveMinDistance true rp nrp,
          schedule_random_replica := srr, exec_at_coord := ea,
          coord_ip := coord }
        (by simp [effectiveMinDistance, TReplicaPreference.rank]) _ _ _ hok
        rfl (by intro rec h; cases h)
    exact ⟨h1, h2, Nat.le_refl 1⟩

/-- Expected assignment context of the C3 witness run. -/
def ctxC3expected : AssignmentCtx :=
  { random_backend_order := ["10.0.0.1", "10.0.0.2"],
    first_unused_backend_idx := 0,
    assignment_heap := [⟨1048576, 0, "10.0.0.1"⟩],
    records := [⟨"10.0.0.1", 0, false, false, 1048576⟩],
    cached_bytes := 0, local_bytes := 1048576, remote_bytes := 0 }

/-- Witness for C3: a cached replica under disable_cached_reads is assigned
as a plain disk-local read. -/
theorem C3_disable_cached_reads_witness :
    ctxC3expected.cached_bytes = 0 ∧
    (∀ rec ∈ ctxC3expected.records, rec.is_cached = false) ∧
    TReplicaPreference.DISK_LOCAL.rank ≤
      (effectiveMinDistance true .CACHE_LOCAL none).rank :=
  C3_disable_cached_reads ["10.0.0.1", "10.0.0.2"] ["10.0.0.1", "10.0.0.2"]
    ["10.0.0.1", "10.0.0.2"] [⟨1048576, [⟨0, true⟩, ⟨1, false⟩]⟩]
    .CACHE_LOCAL none false false "coord" _ rfl

theorem foldl_local_ties (ctx : AssignmentCtx) (x : IpAddr)
    (xs : List IpAddr)
    (heq : ∀ ip ∈ xs, assignedBytesOf ctx ip = assignedBytesOf ctx x) :
    xs.foldl (fun acc e =>
      if keyLt (localKey ctx false e) (localKey ctx false acc) then e
      else acc) x = x := by
  induction xs with
  | nil => rfl
  | cons y ys ih =>
    rw [List.foldl_cons]
    have hby : assignedBytesOf ctx y = assignedBytesOf ctx x :=
      heq y (List.mem_cons_self y ys)
    have hcond :
        keyLt (localKey ctx false y) (localKey ctx false x) = false := by
      simp [keyLt, localKey, hby]
    rw [hcond]
    exact ih (fun ip h => heq ip (List.mem_cons_of_mem y h))

/-- C7: ties between candidate backends at best distance DISK_LOCAL are
broken by the random rank exactly when schedule_random_replica is set (for
CACHE_LOCAL and REMOTE the rank is always used); with the flag unset the
first candidate in input order wins; in particular, with two equally
loaded executors 10.0.0.1 and 10.0.0.2 and schedule_random_replica unset,
the scan range is assigned to 10.0.0.1. -/
theorem C7_disk_local_tie_break :
    (∀ srr : Bool, breakTiesFor .DISK_LOCAL srr = srr) ∧
    (∀ srr : Bool, breakTiesFor .CACHE_LOCAL srr = true ∧
        breakTiesFor .REMOTE srr = true) ∧
    (∀ (ctx : AssignmentCtx) (x : IpAddr) (xs : List IpAddr),
        (∀ ip ∈ xs, assignedBytesOf ctx ip = assignedBytesOf ctx x) →
        SelectLocalBackendHost ctx (x :: xs) false = some x) ∧
    (∀ (ctx : AssignmentCtx) (a b : IpAddr),
        assignedBytesOf ctx a = assignedBytesOf ctx b →
        SelectLocalBackendHost ctx [a, b] true =
          some (if GetBackendRank ctx b < GetBackendRank ctx a then b
            else a)) ∧
    (ComputeScanRangeAssignment ["10.0.0.1", "10.0.0.2"]
        ["10.0.0.2", "10.0.0.1"] ["10.0.0.1", "10.0.0.2"]
        [⟨1048576, [⟨0, false⟩, ⟨1, false⟩]⟩] false .CACHE_LOCAL none false
        false "coord").map (fun c => c.records.map (fun rec => rec.ip)) =
      .ok ["10.0.0.1"] := by
  refine ⟨fun srr => by cases srr <;> rfl,
    fun srr => ⟨rfl, rfl⟩, ?_, ?_, by rfl⟩
  · intro ctx x xs heq
    simp only [SelectLocalBackendHost, Option.some.injEq]
    exact foldl_local_ties ctx x xs heq
  · intro ctx a b hby
    simp only [SelectLocalBackendHost, List.foldl_cons, List.foldl_nil,
      Option.some.injEq]
    by_cases hr : GetBackendRank ctx b < GetBackendRank ctx a <;>
      simp [keyLt, localKey, hby, hr, Nat.cast_lt]

/-- Witness for C7: the tie-break facts applied at a concrete context with
two equally loaded backends. -/
theorem C7_disk_local_tie_break_witness :
    SelectLocalBackendHost (initCtx ["10.0.0.2", "10.0.0.1"])
      ["10.0.0.1", "10.0.0.2"] false = some "10.0.0.1" ∧
    SelectLocalBackendHost (initCtx ["10.0.0.2", "10.0.0.1"])
      ["10.0.0.1", "10.0.0.2"] true =
      some (if GetBackendRank (initCtx ["10.0.0.2", "10.0.0.1"]) "10.0.0.2" <
          GetBackendRank (initCtx ["10.0.0.2", "10.0.0.1"]) "10.0.0.1"
        then "10.0.0.2" else "10.0.0.1") :=
  ⟨C7_disk_local_tie_break.2.2.1 (initCtx ["10.0.0.2", "10.0.0.1"])
      "10.0.0.1" ["10.0.0.2"] (by intro ip h; simp at h; subst h; rfl),
    C7_disk_local_tie_break.2.2.2.1 (initCtx ["10.0.0.2", "10.0.0.1"])
      "10.0.0.1" "10.0.0.2" rfl⟩

theorem foldl_pick_mem {α : Type} (g : α → α → Bool) (x : α)
    (xs : List α) :
    xs.foldl (fun acc e => if g acc e then e else acc) x ∈ x :: xs := by
  induction xs generalizing x with
  | nil => simp
  | cons y ys ih =>
    rw [List.foldl_cons]
    cases hg : g x y with
    | true =>
      simp only [hg, if_true]
      exact List.mem_cons_of_mem x (ih y)
    | false =>
      simp only [hg, Bool.false_eq_true, if_false]
      rcases List.mem_cons.mp (ih x) with hm | hm
      · rw [hm]; exact List.mem_cons_self _ _
      · exact List.mem_cons_of_mem x (List.mem_cons_of_mem y hm)

theorem SelectLocalBackendHost_mem {ctx : AssignmentCtx}
    {locs : List IpAddr} {b : Bool} {ip : IpAddr}
    (h : SelectLocalBackendHost ctx locs b = some ip) : ip ∈ locs := by
  cases locs with
  | nil => cases h
  | cons x xs =>
    simp only [SelectLocalBackendHost, Option.some.injEq] at h
    subst h
    exact foldl_pick_mem
      (fun acc e => keyLt (localKey ctx b e) (localKey ctx b acc)) x xs

theorem atBestOf_mem_executors {p : SchedParams}
    {reps : List (IpAddr × Bool)} {ip : IpAddr}
    (h : ip ∈ atBestOf p (candidatesOf p reps)) : ip ∈ p.executors := by
  simp only [atBestOf, List.mem_map, List.mem_filter] at h
  obtain ⟨q, ⟨hq, _⟩, rfl⟩ := h
  simp only [distsOf, List.mem_map] at hq
  obtain ⟨c, hc, rfl⟩ := hq
  simp only [candidatesOf, List.mem_filter, decide_eq_true_eq] at hc
  exact hc.2

/-- Invariant carried through scan-range assignment: every ip mentioned in
the random order, the heap and the records is an executor. -/
def ctxInv (execs : List IpAddr) (ctx : AssignmentCtx) : Prop :=
  (∀ ip ∈ ctx.random_backend_order, ip ∈ execs) ∧
  (∀ e ∈ ctx.assignment_heap, e.ip ∈ execs) ∧
  (∀ rec ∈ ctx.records, rec.ip ∈ execs)

theorem InsertOrUpdate_ips {heap : List BackendAssignmentInfo} {ip : IpAddr}
    {delta rank : Int} :
    ∀ e ∈ InsertOrUpdate heap ip delta rank,
      e.ip = ip ∨ ∃ y ∈ heap, e.ip = y.ip := by
  intro e he
  unfold InsertOrUpdate at he
  split at he
  · obtain ⟨y, hy, hey⟩ := List.mem_map.mp he
    right
    refine ⟨y, hy, ?_⟩
    by_cases hyi : (y.ip == ip) = true
    · rw [← hey]; simp [hyi]
    · rw [← hey]; simp [hyi]
  · rcases List.mem_cons.mp he with rfl | h
    · exact Or.inl rfl
    · exact Or.inr ⟨e, h, rfl⟩

theorem Record_ctxInv {execs : List IpAddr} {ctx : AssignmentCtx}
    {ip : IpAddr} {idx : Nat} {len : Int} {c r : Bool}
    (hinv : ctxInv execs ctx) (hip : ip ∈ execs) :
    ctxInv execs (RecordScanRangeAssignment ctx ip idx len c r) := by
  obtain ⟨h1, h2, h3⟩ := hinv
  refine ⟨h1, ?_, ?_⟩
  · intro e he
    simp only [RecordScanRangeAssignment] at he
    rcases InsertOrUpdate_ips e he with h | ⟨y, hy, h⟩
    · rw [h]; exact hip
    · rw [h]; exact h2 y hy
  · intro rec h
    simp only [RecordScanRangeAssignment, List.mem_cons] at h
    rcases h with rfl | h
    · exact hip
    · exact h3 rec h

theorem Record_records (ctx : AssignmentCtx) (ip : IpAddr) (idx : Nat)
    (len : Int) (c r : Bool) :
    ∃ rec : AssignedRange,
      (RecordScanRangeAssignment ctx ip idx len c r).records =
        rec :: ctx.records ∧ rec.range_idx = idx :=
  ⟨_, rfl, rfl⟩

theorem processRange_ok {p : SchedParams} {ctx ctx2 : AssignmentCtx}
    {idx : Nat} {r : TScanRangeLocationList}
    (hcoord : p.exec_at_coord = false)
    (hok : processRange p ctx idx r = .ok ctx2)
    (hinv : ctxInv p.executors ctx) :
    ctxInv p.executors ctx2 ∧
    ∃ rec : AssignedRange, ctx2.records = rec :: ctx.records ∧
      rec.range_idx = idx := by
  unfold processRange at hok
  split at hok
  · rename_i hcT
    rw [hcoord] at hcT
    cases hcT
  · split at hok
    · cases hok
    · split at hok
      · split at hok
        · cases hok
        · rename_i ip ctxm hq
          cases hok
          obtain ⟨horig, hrecs, hheap, horder2, -⟩ := SelectRemote_fields hq
          have hip : ip ∈ p.executors := by
            rcases horig with hin | ⟨e, he, hipe⟩
            · exact hinv.1 ip hin
            · rw [hipe]; exact hinv.2.1 e he
          have hinvm : ctxInv p.executors ctxm :=
            ⟨by rw [horder2]; exact hinv.1,
              by rw [hheap]; exact hinv.2.1,
              by rw [hrecs]; exact hinv.2.2⟩
          obtain ⟨rec, hr1, hr2⟩ :=
            Record_records ctxm ip idx r.length_bytes false true
          exact ⟨Record_ctxInv hinvm hip, rec, by rw [hr1, hrecs], hr2⟩
      · split at hok
        · cases hok
        · rename_i ip hsel
          cases hok
          have hip : ip ∈ p.executors :=
            atBestOf_mem_executors (SelectLocalBackendHost_mem hsel)
          obtain ⟨rec, hr1, hr2⟩ := Record_records ctx ip idx r.length_bytes
            (bestOf p (candidatesOf p _) == TReplicaPreference.CACHE_LOCAL)
            (bestOf p (candidatesOf p _) == TReplicaPreference.REMOTE)
          exact ⟨Record_ctxInv hinv hip, rec, hr1, hr2⟩

theorem assignRanges_perm {p : SchedParams}
    (hcoord : p.exec_at_coord = false)
    (items : List (Nat × TScanRangeLocationList)) :
    ∀ ctx ctx2 : AssignmentCtx, assignRanges p ctx items = .ok ctx2 →
      ctxInv p.executors ctx →
      ctxInv p.executors ctx2 ∧
      List.Perm (ctx2.records.map (fun rec => rec.range_idx))
        (items.map Prod.fst ++
          ctx.records.map (fun rec => rec.range_idx)) := by
  induction items with
  | nil =>
    intro ctx ctx2 hok hinv
    cases hok
    exact ⟨hinv, by simp⟩
  | cons item rest ih =>
    intro ctx ctx2 hok hinv
    unfold assignRanges at hok
    cases hp : processRange p ctx item.1 item.2 with
    | error e => rw [hp] at hok; cases hok
    | ok ctxm =>
      rw [hp] at hok
      obtain ⟨hinv2, rec, hrecs, hidx⟩ := processRange_ok hcoord hp hinv
      obtain ⟨hinv3, hperm⟩ := ih ctxm ctx2 hok hinv2
      refine ⟨hinv3, ?_⟩
      have hm : ctxm.records.map (fun rec => rec.range_idx) =
          item.1 :: ctx.records.map (fun rec => rec.range_idx) := by
        rw [hrecs, List.map_cons, hidx]
      rw [hm] at hperm
      simp only [List.map_cons, List.cons_append]
      exact hperm.trans List.perm_middle

/-- C1: with exec_at_coord unset, a successful ComputeScanRangeAssignment
assigns every scan range of the plan node to exactly one executor: each
range index is recorded exactly once over all backends, every recorded
backend is an executor, and the number of records equals the number of
scan ranges. -/
theorem C1_every_range_exactly_once (executors order host_list : List IpAddr)
    (locations : List TScanRangeLocationList) (dcr : Bool)
    (rp : TReplicaPreference) (nrp : Option TReplicaPreference) (srr : Bool)
    (coord : IpAddr) (ctx2 : AssignmentCtx)
    (horder : ∀ ip ∈ order, ip ∈ executors)
    (hok : ComputeScanRangeAssignment executors order host_list locations
      dcr rp nrp srr false coord = .ok ctx2) :
    (∀ i < locations.length,
        (ctx2.records.map (fun rec => rec.range_idx)).count i = 1) ∧
    (∀ rec ∈ ctx2.records, rec.ip ∈ executors) ∧
    ctx2.records.length = locations.length := by
  unfold ComputeScanRangeAssignment at hok
  split at hok
  · cases hok
  · have hinv0 : ctxInv executors (initCtx order) := by
      refine ⟨?_, ?_, ?_⟩
      · intro ip h
        exact horder ip h
      · intro e h
        cases h
      · intro rec h
        cases h
    obtain ⟨hinv, hperm⟩ := assignRanges_perm rfl _ _ _ hok hinv0
    simp only [initCtx, List.map_nil, List.append_nil] at hperm
    have hfilters : List.Perm
        ((locations.enum.filter
            (fun q => hasLocalReplica executors host_list q.2) ++
          locations.enum.filter
            (fun q =>
              !(hasLocalReplica executors host_list q.2))).map Prod.fst)
        (locations.enum.map Prod.fst) :=
      (List.filter_append_perm _ _).map Prod.fst
    have hall : List.Perm (ctx2.records.map (fun rec => rec.range_idx))
        (List.range locations.length) := by
      rw [← List.enum_map_fst]
      exact hperm.trans hfilters
    refine ⟨?_, hinv.2.2, ?_⟩
    · intro i hi
      rw [hall.count_eq i]
      exact List.count_eq_one_of_mem (List.nodup_range _)
        (List.mem_range.mpr hi)
    · have := hall.length_eq
      simpa using this

/-- Expected assignment context of the C1 witness run: a local range and a
purely remote range on a two-executor snapshot. -/
def ctxC1expected : AssignmentCtx :=
  { random_backend_order := ["10.0.0.1", "10.0.0.2"],
    first_unused_backend_idx := 1,
    assignment_heap := [⟨150, 0, "10.0.0.1"⟩],
    records := [⟨"10.0.0.1", 1, false, true, 50⟩,
      ⟨"10.0.0.1", 0, false, false, 100⟩],
    cached_bytes := 0, local_bytes := 100, remote_bytes := 50 }

/-- Witness for C1 at a concrete two-range plan. -/
theorem C1_every_range_exactly_once_witness :
    (∀ i < 2,
        (ctxC1expected.records.map (fun rec => rec.range_idx)).count i
          = 1) ∧
    (∀ rec ∈ ctxC1expected.records,
        rec.ip ∈ ["10.0.0.1", "10.0.0.2"]) ∧
    ctxC1expected.records.length = 2 :=
  C1_every_range_exactly_once ["10.0.0.1", "10.0.0.2"]
    ["10.0.0.1", "10.0.0.2"] ["10.0.0.1", "10.0.0.9"]
    [⟨100, [⟨0, false⟩]⟩, ⟨50, [⟨1, false⟩]⟩] false .CACHE_LOCAL none false
    "coord" ctxC1expected (by decide) rfl

end ImpalaSched
